import Mathlib

/-
Verification of the fuzzytail log-tailing core (src/tail.rs, src/colorizer.rs,
src/filter.rs) against its natural-language specification.

Strings are modelled as lists of characters (`Str`).  Rust's `VecDeque`
buffers are modelled as lists with `push_back` = append at the end and
`pop_front` = dropping the head.  External collaborators (the regex engine,
the filesystem) are modelled as function parameters: a compiled regex is an
abstract matcher `Str → Bool` or an abstract match-range finder
`Str → List (Nat × Nat)`, and one poll of the filesystem is described by the
contents and identities the syscalls would return.  All definitions are
executable and kernel-reducible (loops with a data-dependent bound use an
explicit fuel equal to that bound).
-/

set_option maxHeartbeats 1000000

namespace Fuzzytail

/-- Strings as lists of characters. -/
abbrev Str := List Char

/-- The ASCII escape character `'\x1b'`, the introducer of ANSI sequences. -/
def escCh : Char := Char.ofNat 27

/-- Model of Rust `char::is_ascii_alphabetic` (`'A'..='Z' | 'a'..='z'`). -/
def isAsciiAlpha (c : Char) : Bool :=
  (65 ≤ c.toNat && c.toNat ≤ 90) || (97 ≤ c.toNat && c.toNat ≤ 122)

/-- Model of Rust `char::is_control`: the Unicode `Cc` category,
`U+0000..U+001F` and `U+007F..U+009F`. -/
def isCtrl (c : Char) : Bool :=
  c.toNat < 32 || (127 ≤ c.toNat && c.toNat ≤ 159)

/-- The style-reset sequence `"\x1b[0m"` (theme.rs `Color::to_ansi_reset`). -/
def ansiReset : Str := [escCh, '[', '0', 'm']

/-! ## `pad_ansi` (tail.rs lines 1298-1349)

`pad_ansi` walks the string with a visible-column counter and an
`in_escape` flag: escape sequences (`escCh` up to the first ASCII-alphabetic
character) pass through uncounted, tabs expand to the next 4-column stop,
other control characters are dropped, input past `max_width` visible
columns is discarded, then a style reset and space padding are appended. -/

/-- The epilogue after the character loop of `pad_ansi`: push the reset
sequence, then pad with spaces up to `w` visible columns. -/
def padFinish (w vis : Nat) : Str := ansiReset ++ List.replicate (w - vis) ' '

/-- The character loop of `pad_ansi`, with the running state
(`vis` = `visible`, `b` = `in_escape`) made explicit. -/
def padAnsiGo (w : Nat) : Str → Nat → Bool → Str
  | [], vis, _ => padFinish w vis
  | c :: cs, vis, true => c :: padAnsiGo w cs vis (!(isAsciiAlpha c))
  | c :: cs, vis, false =>
    if c = escCh then
      if w ≤ vis then padFinish w vis
      else c :: padAnsiGo w cs vis true
    else if c = '\t' then
      let add := min (4 - vis % 4) (w - vis)
      List.replicate add ' ' ++ padAnsiGo w cs (vis + add) false
    else if w ≤ vis then padFinish w vis
    else if isCtrl c then padAnsiGo w cs vis false
    else c :: padAnsiGo w cs (vis + 1) false

/-- `pad_ansi(s, max_width)` from tail.rs. -/
def pad_ansi (s : Str) (w : Nat) : Str := padAnsiGo w s 0 false

/-- Count of visible columns of a string: characters that are not part of
an escape sequence (introducer through first ASCII-alphabetic character)
and are not control characters.  The `b` flag is the in-escape state. -/
def visWidthGo : Str → Bool → Nat
  | [], _ => 0
  | c :: cs, true => visWidthGo cs (!(isAsciiAlpha c))
  | c :: cs, false =>
    if c = escCh then visWidthGo cs true
    else if isCtrl c then visWidthGo cs false
    else 1 + visWidthGo cs false

/-- Visible width of a string, starting outside any escape sequence. -/
def visWidth (s : Str) : Nat := visWidthGo s false

theorem space_ne_escCh : ¬ (' ' = escCh) := by decide

theorem isCtrl_space : isCtrl ' ' = false := by decide

theorem visWidthGo_replicate_space (n : Nat) (rest : Str) :
    visWidthGo (List.replicate n ' ' ++ rest) false = n + visWidthGo rest false := by
  induction n with
  | zero => simp
  | succ k ih =>
    simp [List.replicate_succ, visWidthGo, space_ne_escCh, isCtrl_space, ih]
    omega

theorem visWidthGo_padFinish (w vis : Nat) (b : Bool) :
    visWidthGo (padFinish w vis) b = w - vis := by
  have h : visWidthGo (List.replicate (w - vis) ' ') false = w - vis := by
    have := visWidthGo_replicate_space (w - vis) []
    simpa [visWidthGo] using this
  cases b <;>
    simp [padFinish, ansiReset, visWidthGo, isAsciiAlpha, isCtrl, escCh, h]

theorem padAnsiGo_width (w : Nat) :
    ∀ (s : Str) (vis : Nat) (b : Bool), vis ≤ w →
      visWidthGo (padAnsiGo w s vis b) b = w - vis := by
  intro s
  induction s with
  | nil =>
    intro vis b _
    exact visWidthGo_padFinish w vis b
  | cons c cs ih =>
    intro vis b hv
    cases b with
    | true =>
      simpa [padAnsiGo, visWidthGo] using ih vis (!(isAsciiAlpha c)) hv
    | false =>
      by_cases hesc : c = escCh
      · subst hesc
        by_cases hw : w ≤ vis
        · simp [padAnsiGo, hw, visWidthGo_padFinish]
        · simpa [padAnsiGo, hw, visWidthGo] using ih vis true hv
      · by_cases htab : c = '\t'
        · subst htab
          have hne : ¬ ('\t' = escCh) := by decide
          have hadd : min (4 - vis % 4) (w - vis) ≤ w - vis := Nat.min_le_right _ _
          simp only [padAnsiGo, if_neg hne, if_pos rfl, ite_true]
          rw [visWidthGo_replicate_space]
          rw [ih ((vis + min (4 - vis % 4) (w - vis))) false (by omega)]
          omega
        · by_cases hw : w ≤ vis
          · simp [padAnsiGo, hesc, htab, hw, visWidthGo_padFinish]
          · by_cases hct : isCtrl c
            · simpa [padAnsiGo, hesc, htab, hw, hct, visWidthGo] using
                ih vis false hv
            · have h1 := ih (vis + 1) false (by omega)
              simp [padAnsiGo, hesc, htab, hw, hct, visWidthGo, h1]
              omega

/-- C1: for every input string `s` (any mix of embedded ANSI styling codes)
and every width `w`, `pad_ansi s w` has exactly `w` visible columns, where
visible means characters that are not part of an escape sequence and not
control characters; excess input is discarded, a style reset is appended,
and spaces pad up to exactly `w`. -/
theorem pad_ansi_exact_width (s : Str) (w : Nat) : visWidth (pad_ansi s w) = w := by
  have h := padAnsiGo_width w s 0 false (Nat.zero_le w)
  simpa [pad_ansi, visWidth] using h

/-! ## `rgb_to_xterm256` (tail.rs lines 1232-1237) -/

/-- `rgb_to_xterm256(r, g, b)`: quantize each byte to `0..=5` and index into
the xterm-256 color cube.  The Rust code widens each byte to `u16` for
`r * 5 + 127`, divides by 255, narrows to `u8` and computes
`16 + 36*ri + 6*gi + bi` in `u8`; here the arithmetic is carried out in
`Nat` so that absence of overflow is the statement that the result is
below 256. -/
def rgb_to_xterm256 (r g b : Nat) : Nat :=
  16 + 36 * ((r * 5 + 127) / 255) + 6 * ((g * 5 + 127) / 255) + (b * 5 + 127) / 255

/-- C10: for bytes `r`, `g`, `b`, each quantized component is at most 5, and
the result lies in the xterm-256 color cube `16..=231`; in particular the
`u8` arithmetic `16 + 36*ri + 6*gi + bi` stays below 256 and cannot
overflow. -/
theorem rgb_to_xterm256_in_cube (r g b : Nat)
    (hr : r ≤ 255) (hg : g ≤ 255) (hb : b ≤ 255) :
    (r * 5 + 127) / 255 ≤ 5 ∧ (g * 5 + 127) / 255 ≤ 5 ∧ (b * 5 + 127) / 255 ≤ 5 ∧
    16 ≤ rgb_to_xterm256 r g b ∧ rgb_to_xterm256 r g b ≤ 231 := by
  unfold rgb_to_xterm256
  omega

/-- Witness for C10 at `(r, g, b) = (255, 128, 0)`. -/
theorem rgb_to_xterm256_in_cube_witness :
    (255 * 5 + 127) / 255 ≤ 5 ∧ (128 * 5 + 127) / 255 ≤ 5 ∧ (0 * 5 + 127) / 255 ≤ 5 ∧
    16 ≤ rgb_to_xterm256 255 128 0 ∧ rgb_to_xterm256 255 128 0 ≤ 231 :=
  rgb_to_xterm256_in_cube 255 128 0 (by decide) (by decide) (by decide)

/-! ## Severity filter (filter.rs)

`LineFilter` holds an optional include matcher, an optional exclude
matcher and an optional severity threshold; compiled regexes are external
and are modelled as abstract predicates `Str → Bool`. -/

inductive LogLevel where
  | emergency
  | alert
  | critical
  | error
  | warning
  | notice
  | info
  | debug
deriving DecidableEq, Repr

/-- `LogLevel::priority` (filter.rs lines 38-49). -/
def LogLevel.priority : LogLevel → Nat
  | .emergency => 0
  | .alert => 1
  | .critical => 2
  | .error => 3
  | .warning => 4
  | .notice => 5
  | .info => 6
  | .debug => 7

/-- ASCII uppercase mapping; models Rust `str::to_uppercase` on the ASCII
characters that the severity tokens consist of. -/
def toUpperAscii (c : Char) : Char :=
  if 97 ≤ c.toNat && c.toNat ≤ 122 then Char.ofNat (c.toNat - 32) else c

/-- Does `hay` start with `needle`? -/
def strStarts : Str → Str → Bool
  | _, [] => true
  | [], _ :: _ => false
  | a :: as, b :: bs => a = b && strStarts as bs

/-- Substring test, modelling Rust `str::contains`. -/
def containsStr : Str → Str → Bool
  | [], needle => needle.isEmpty
  | l@(_ :: rest), needle => strStarts l needle || containsStr rest needle

/-- `detect_log_level` (filter.rs lines 122-145): case-insensitive substring
search for the known severity tokens, in the listed order. -/
def detect_log_level (line : Str) : Option LogLevel :=
  let u := line.map toUpperAscii
  if containsStr u ("EMERG".toList) || containsStr u ("EMERGENCY".toList) then
    some .emergency
  else if containsStr u ("ALERT".toList) then some .alert
  else if containsStr u ("CRIT".toList) || containsStr u ("CRITICAL".toList) then
    some .critical
  else if containsStr u ("ERROR".toList) || containsStr u ("ERR".toList) then
    some .error
  else if containsStr u ("WARN".toList) || containsStr u ("WARNING".toList) then
    some .warning
  else if containsStr u ("NOTICE".toList) then some .notice
  else if containsStr u ("INFO".toList) then some .info
  else if containsStr u ("DEBUG".toList) || containsStr u ("TRACE".toList) then
    some .debug
  else none

/-- `line_matches_level` (filter.rs lines 110-120): with a detected level,
show iff its priority is numerically at most the target's; with none, show
only for `Info` and `Debug` targets. -/
def line_matches_level (line : Str) (target : LogLevel) : Bool :=
  match detect_log_level line with
  | some d => decide (d.priority ≤ target.priority)
  | none =>
    match target with
    | .debug => true
    | .info => true
    | _ => false

/-- `LineFilter` (filter.rs lines 4-9) with compiled regexes abstracted as
predicates. -/
structure LineFilter where
  inc_re : Option (Str → Bool)
  exc_re : Option (Str → Bool)
  level_f : Option LogLevel

/-- `should_show_line` (filter.rs lines 85-108): exclude checked first,
then include, then the severity threshold. -/
def should_show_line (f : LineFilter) (line : Str) : Bool :=
  if (match f.exc_re with | some r => r line | none => false) then false
  else if (match f.inc_re with | some r => !(r line) | none => false) then false
  else if (match f.level_f with
           | some t => !(line_matches_level line t)
           | none => false) then false
  else true

/-- A filter with only a severity threshold set. -/
def sevOnly (t : LogLevel) : LineFilter := ⟨none, none, some t⟩

/-- C7: a severity threshold of `Error` shows a line iff its detected level
is Emergency, Alert, Critical or Error (hiding lines with no detected
token), and in general a line with a detected severity is shown iff that
severity's priority is numerically at most the threshold's, while a line
with no detected severity is shown only at thresholds `Info` or `Debug`. -/
theorem severity_filter_semantics (l : Str) (lvl : LogLevel) :
    (should_show_line (sevOnly .error) l = true ↔
      (detect_log_level l = some .emergency ∨ detect_log_level l = some .alert ∨
       detect_log_level l = some .critical ∨ detect_log_level l = some .error)) ∧
    (should_show_line (sevOnly lvl) l = true ↔
      ((∃ d, detect_log_level l = some d ∧ d.priority ≤ lvl.priority) ∨
       (detect_log_level l = none ∧ (lvl = .info ∨ lvl = .debug)))) := by
  constructor
  · cases h : detect_log_level l with
    | none => simp [should_show_line, sevOnly, line_matches_level, h]
    | some d =>
      cases d <;>
        simp [should_show_line, sevOnly, line_matches_level, h, LogLevel.priority]
  · cases h : detect_log_level l with
    | none =>
      cases lvl <;> simp [should_show_line, sevOnly, line_matches_level, h]
    | some d =>
      cases d <;> cases lvl <;>
        simp [should_show_line, sevOnly, line_matches_level, h, LogLevel.priority]

/-! ## `LineFilter::new` and the runtime filter prompt -/

/-- `LogLevel::from_str` (filter.rs lines 24-36). -/
def logLevelFromStr (s : Str) : Option LogLevel :=
  let u := s.map toUpperAscii
  if u = ("EMERG".toList) ∨ u = ("EMERGENCY".toList) then some .emergency
  else if u = ("ALERT".toList) then some .alert
  else if u = ("CRIT".toList) ∨ u = ("CRITICAL".toList) then some .critical
  else if u = ("ERR".toList) ∨ u = ("ERROR".toList) then some .error
  else if u = ("WARN".toList) ∨ u = ("WARNING".toList) then some .warning
  else if u = ("NOTICE".toList) then some .notice
  else if u = ("INFO".toList) then some .info
  else if u = ("DEBUG".toList) ∨ u = ("TRACE".toList) then some .debug
  else none

/-- Compile an optional pattern: absent patterns succeed with no matcher,
present patterns fail (propagating the error) when the external regex
compiler `compile` rejects them. -/
def compileOpt (compile : Str → Option (Str → Bool)) :
    Option Str → Option (Option (Str → Bool))
  | none => some none
  | some p =>
    match compile p with
    | none => none
    | some r => some (some r)

/-- Parse an optional level string, failing on an unknown level. -/
def levelOpt : Option Str → Option (Option LogLevel)
  | none => some none
  | some s =>
    match logLevelFromStr s with
    | none => none
    | some t => some (some t)

/-- `LineFilter::new` (filter.rs lines 53-83): compile the include pattern,
then the exclude pattern, then parse the level; the first failure aborts
the construction (`none`). -/
def lineFilterNew (compile : Str → Option (Str → Bool))
    (include_p exclude_p level : Option Str) : Option LineFilter := do
  let ir ← compileOpt compile include_p
  let er ← compileOpt compile exclude_p
  let lf ← levelOpt level
  pure ⟨ir, er, lf⟩

/-- `FileTracker` (tail.rs lines 25-38): the poll-relevant state of one
tracked file.  The open handle and the last-update timestamp are not
modelled; `filter` stores the `should_show_line` behavior of the compiled
per-window override. -/
structure FileTracker where
  position : Nat
  lines : List Str
  raw_lines : List Str
  max_lines : Nat
  line_count : Nat
  paused : Bool
  file_id : Option (Nat × Nat)
  filter : Option (Str → Bool)
  search_term : Option Str

/-- An empty prompt string means "no pattern" (tail.rs lines 468-469). -/
def strOpt (s : Str) : Option Str := if s.isEmpty then none else some s

/-- The body of the `f` (set per-window filter) command handler
(tail.rs lines 460-477): the tracker's filter field is replaced only when
`LineFilter::new` succeeds on the entered patterns. -/
def set_filter_command (compile : Str → Option (Str → Bool))
    (t : FileTracker) (incStr excStr : Str) : FileTracker :=
  match lineFilterNew compile (strOpt incStr) (strOpt excStr) none with
  | some f => { t with filter := some (should_show_line f) }
  | none => t

/-- C8: when the patterns entered at the runtime per-window filter prompt
do not compile, the request is rejected and the tracker — in particular
its prior filter state — is retained unchanged; the filter field is
mutated only when the supplied patterns compile successfully. -/
theorem set_filter_invalid_regex_keeps_state
    (compile : Str → Option (Str → Bool)) (t : FileTracker)
    (incStr excStr : Str)
    (h : lineFilterNew compile (strOpt incStr) (strOpt excStr) none = none) :
    set_filter_command compile t incStr excStr = t := by
  unfold set_filter_command
  rw [h]

/-- A concrete tracker used by witnesses. -/
def trkEx : FileTracker :=
  ⟨0, [], [], 10, 0, false, none, none, none⟩

/-- Witness for C8: a compiler that rejects the pattern `"("` leaves the
tracker unchanged. -/
theorem set_filter_invalid_regex_keeps_state_witness :
    lineFilterNew (fun _ => none) (strOpt ("(".toList)) (strOpt []) none
        = none ∧
      set_filter_command (fun _ => none) trkEx ("(".toList) [] = trkEx :=
  ⟨rfl, set_filter_invalid_regex_keeps_state (fun _ => none) trkEx _ _ rfl⟩

/-! ## Bounded scrollback buffers (C2) -/

/-- Fuel-bounded form of the eviction loop
`while lines.len() > max_lines { lines.pop_front(); }`
(tail.rs lines 1119-1124); the fuel is instantiated with the list length,
which bounds the number of pops. -/
def evictLoopAux (cap : Nat) : Nat → List Str → List Str
  | 0, l => l
  | fuel + 1, l => if cap < l.length then evictLoopAux cap fuel l.tail else l

/-- The eviction loop: pop from the front while the length exceeds `cap`. -/
def evictLoop (cap : Nat) (l : List Str) : List Str := evictLoopAux cap l.length l

theorem evictLoopAux_eq_drop (cap : Nat) :
    ∀ (fuel : Nat) (l : List Str), l.length - cap ≤ fuel →
      evictLoopAux cap fuel l = l.drop (l.length - cap) := by
  intro fuel
  induction fuel with
  | zero =>
    intro l h
    have h0 : l.length - cap = 0 := by omega
    simp [evictLoopAux, h0]
  | succ k ih =>
    intro l h
    by_cases hlen : cap < l.length
    · cases l with
      | nil => simp at hlen
      | cons x xs =>
        have hx : xs.length - cap ≤ k := by simp at h hlen ⊢; omega
        have hk : (x :: xs).length - cap = (xs.length - cap) + 1 := by
          simp at hlen ⊢; omega
        simp only [evictLoopAux, if_pos hlen, List.tail_cons, ih xs hx, hk,
          List.drop_succ_cons]
    · have h0 : l.length - cap = 0 := by omega
      simp [evictLoopAux, hlen, h0]

theorem evictLoop_eq_drop (cap : Nat) (l : List Str) :
    evictLoop cap l = l.drop (l.length - cap) :=
  evictLoopAux_eq_drop cap l.length l (Nat.sub_le _ _)

/-- Push one accepted line into a tracker's paired buffers
(tail.rs lines 1113-1124): the colorized line goes onto `lines`, the raw
line onto `raw_lines`, the running counter is bumped, and both buffers are
evicted from the front down to `max_lines`. -/
def pushAccepted (colorize : Str → Str) (t : FileTracker) (clean : Str) :
    FileTracker :=
  { t with
    lines := evictLoop t.max_lines (t.lines ++ [colorize clean]),
    raw_lines := evictLoop t.max_lines (t.raw_lines ++ [clean]),
    line_count := t.line_count + 1 }

/-- The initial seeding of a freshly opened tracker's buffers
(tail.rs lines 336-344): the last (up to) 100 lines of the file are run
through the global filter and the colorizer and pushed with no eviction. -/
def seedTracker (colorize : Str → Str) (gfilt : Str → Bool)
    (t : FileTracker) (initial_lines : List Str) : FileTracker :=
  initial_lines.foldl
    (fun acc line =>
      if gfilt line then
        { acc with
          lines := acc.lines ++ [colorize line],
          raw_lines := acc.raw_lines ++ [line] }
      else acc) t

/-- A tracker with empty buffers and capacity `cap`. -/
def emptyTracker (cap : Nat) : FileTracker :=
  ⟨0, [], [], cap, 0, false, none, none, none⟩

/-- Counterexample to C2 as stated: the initial seeding path
(tail.rs lines 336-344) pushes accepted lines with no eviction, so with
capacity 1 and two accepted seed lines the buffer holds 2 > 1 lines — the
buffer length does exceed the capacity bound. -/
theorem seed_exceeds_capacity_counterexample :
    (seedTracker id (fun _ => true) (emptyTracker 1)
        [("a".toList), ("b".toList)]).raw_lines.length = 2 ∧
      (seedTracker id (fun _ => true) (emptyTracker 1)
        [("a".toList), ("b".toList)]).max_lines = 1 := by
  constructor <;> rfl

/-- The pure eviction-fold on one buffer: repeated
`push_back` + evict-to-`cap` leaves the last `cap` elements of the
accumulated sequence. -/
theorem pushFold_eq_drop (cap : Nat) :
    ∀ (L B : List Str), B.length ≤ cap →
      L.foldl (fun b x => evictLoop cap (b ++ [x])) B
        = (B ++ L).drop ((B ++ L).length - cap) := by
  intro L
  induction L with
  | nil =>
    intro B h
    have h0 : B.length - cap = 0 := by omega
    simp only [List.foldl_nil, List.append_nil, h0, List.drop_zero]
  | cons x L ih =>
    intro B h
    simp only [List.foldl_cons]
    rw [evictLoop_eq_drop]
    simp only [List.length_append, List.length_cons, List.length_nil,
      Nat.zero_add]
    rw [ih ((B ++ [x]).drop (B.length + 1 - cap)) (by simp; omega)]
    rw [← List.drop_append_of_le_length
      (show B.length + 1 - cap ≤ (B ++ [x]).length by
        simp only [List.length_append, List.length_cons, List.length_nil,
          Nat.zero_add]
        omega)]
    rw [List.drop_drop]
    have hassoc : B ++ [x] ++ L = B ++ x :: L := by simp
    rw [List.length_drop, hassoc]
    congr 1
    simp only [List.length_append, List.length_cons, List.length_singleton]
    omega

/-- The tracker fold decomposes into independent pure folds on the two
buffers, and leaves the capacity unchanged. -/
theorem foldl_pushAccepted_split (colorize : Str → Str) :
    ∀ (L : List Str) (t : FileTracker),
      (L.foldl (pushAccepted colorize) t).raw_lines
          = L.foldl (fun b x => evictLoop t.max_lines (b ++ [x])) t.raw_lines ∧
        (L.foldl (pushAccepted colorize) t).lines
          = L.foldl (fun b x => evictLoop t.max_lines (b ++ [colorize x]))
              t.lines ∧
        (L.foldl (pushAccepted colorize) t).max_lines = t.max_lines := by
  intro L
  induction L with
  | nil => intro t; exact ⟨rfl, rfl, rfl⟩
  | cons x L ih =>
    intro t
    simpa only [List.foldl_cons] using ih (pushAccepted colorize t x)

/-- C2, amended: on the poll path (tail.rs lines 1109-1127) the raw and
styled buffers always have equal length, the buffer length never exceeds
the capacity after a push, and for all capacities `C` and accepted-line
counts `K > C`, pushing `K` accepted lines into an empty tracker leaves
exactly the last `C` lines, the oldest evicted first.  (As stated the
claim also covers the initial seeding of up to 100 lines, which does not
evict — see the counterexample.) -/
theorem push_accepted_bounded_buffers (colorize : Str → Str)
    (cap : Nat) (L : List Str) (hK : cap < L.length) :
    (L.foldl (pushAccepted colorize) (emptyTracker cap)).raw_lines
        = L.drop (L.length - cap) ∧
      (L.foldl (pushAccepted colorize) (emptyTracker cap)).lines
        = (L.drop (L.length - cap)).map colorize ∧
      (L.foldl (pushAccepted colorize) (emptyTracker cap)).raw_lines.length
        = (L.foldl (pushAccepted colorize) (emptyTracker cap)).lines.length ∧
      (L.foldl (pushAccepted colorize) (emptyTracker cap)).raw_lines.length
        = cap := by
  obtain ⟨h1, h2, _⟩ := foldl_pushAccepted_split colorize L (emptyTracker cap)
  have he1 : (emptyTracker cap).raw_lines = [] := rfl
  have he2 : (emptyTracker cap).lines = [] := rfl
  have he3 : (emptyTracker cap).max_lines = cap := rfl
  rw [he1, he3] at h1
  rw [he2, he3] at h2
  rw [pushFold_eq_drop cap L [] (by simp)] at h1
  rw [← List.foldl_map colorize (fun b y => evictLoop cap (b ++ [y])) L []] at h2
  rw [pushFold_eq_drop cap (L.map colorize) [] (by simp)] at h2
  simp only [List.nil_append, List.length_map] at h1 h2
  rw [← List.map_drop] at h2
  refine ⟨h1, h2, ?_, ?_⟩
  · rw [h1, h2, List.length_map]
  · rw [h1]
    simp only [List.length_drop]
    omega

/-- Witness for C2 (amended): capacity 2, three pushed lines, the last two
remain. -/
theorem push_accepted_bounded_buffers_witness :
    2 < 3 ∧
      ([("a".toList), ("b".toList), ("c".toList)].foldl
          (pushAccepted id) (emptyTracker 2)).raw_lines
        = [("b".toList), ("c".toList)] :=
  ⟨by decide,
    by
      have h := push_accepted_bounded_buffers id 2
        [("a".toList), ("b".toList), ("c".toList)] (by decide)
      exact h.1.trans (by rfl)⟩

/-! ## `check_file_updates`: rotation and truncation (C5, C6)

One poll is a pure function of the tracker state and of the filesystem
observations made during the poll: the identity currently at the tracked
path, the contents of the file the open handle refers to, and — when a
rotation is detected — the identity and contents obtained by reopening
the path (`none` when the new file is not yet created). -/

/-- Rust `char::is_whitespace` (Unicode `White_Space`). -/
def isRustWhitespace (c : Char) : Bool :=
  c.toNat = 32 || (9 ≤ c.toNat && c.toNat ≤ 13) || c.toNat = 133 ||
  c.toNat = 160 || c.toNat = 5760 || (8192 ≤ c.toNat && c.toNat ≤ 8202) ||
  c.toNat = 8232 || c.toNat = 8233 || c.toNat = 8239 || c.toNat = 8287 ||
  c.toNat = 12288

/-- Rust `str::trim_end`. -/
def trimEnd (s : Str) : Str := (s.reverse.dropWhile isRustWhitespace).reverse

/-- Split a byte stream into the chunks produced by repeated `read_line`
calls, without the terminating `'\n'`: a final unterminated chunk is still
returned, and a stream ending in `'\n'` yields no empty final chunk. -/
def splitLinesAux : Str → Str → List Str
  | [], acc => if acc.isEmpty then [] else [acc.reverse]
  | c :: cs, acc =>
    if c = '\n' then acc.reverse :: splitLinesAux cs []
    else splitLinesAux cs (c :: acc)

def splitLines (s : Str) : List Str := splitLinesAux s []

/-- One iteration of the read loop (tail.rs lines 1109-1126): trim the
line end, test the active filter (the per-window override if set, else the
global filter), and push the raw/styled pair on acceptance. -/
def processLine (colorize : Str → Str) (gfilt : Str → Bool)
    (t : FileTracker) (line : Str) : FileTracker :=
  let clean := trimEnd line
  if t.filter.getD gfilt clean then pushAccepted colorize t clean else t

/-- The rotation drain (tail.rs lines 1058-1083): read any bytes of the
old handle beyond `position`, push them through the filter/colorizer, and
advance `position` to the old size. -/
def drainPhase (colorize : Str → Str) (gfilt : Str → Bool)
    (oldContent : Str) (t : FileTracker) : FileTracker :=
  if t.position < oldContent.length then
    { (splitLines (oldContent.drop t.position)).foldl
        (processLine colorize gfilt) t with
      position := oldContent.length }
  else t

/-- The normal read/truncation step (tail.rs lines 1102-1137): if the file
grew, read and push the new lines and advance `position`; if it shrank
without a rotation this poll, reset `position` to 0 and clear both buffers
and the counter. -/
def readPhase (colorize : Str → Str) (gfilt : Str → Bool)
    (content : Str) (rotated : Bool) (t : FileTracker) : FileTracker :=
  if t.position < content.length then
    { (splitLines (content.drop t.position)).foldl
        (processLine colorize gfilt) t with
      position := content.length }
  else if content.length < t.position ∧ rotated = false then
    { t with position := 0, lines := [], raw_lines := [], line_count := 0 }
  else t

/-- The rotation test (tail.rs lines 1056-1057): both identities must be
available and differ. -/
def rotNeeded : Option (Nat × Nat) → Option (Nat × Nat) → Bool
  | some a, some b => decide (a ≠ b)
  | _, _ => false

/-- `check_file_updates` (tail.rs lines 1046-1140).  `pathId` is
`get_file_id(&tracker.path)`, `oldContent` the contents of the file the
open handle refers to, and `reopen` the identity and contents delivered by
`File::open(&tracker.path)` after a detected rotation (`none` when the new
file does not exist yet).  Returns the updated tracker, whether a rotation
occurred, and whether the line count changed. -/
def check_file_updates (colorize : Str → Str) (gfilt : Str → Bool)
    (pathId : Option (Nat × Nat)) (oldContent : Str)
    (reopen : Option (Option (Nat × Nat) × Str))
    (t : FileTracker) : FileTracker × Bool × Bool :=
  if t.paused then (t, false, false)
  else
    let oldCount := t.line_count
    if rotNeeded t.file_id pathId then
      let t1 := drainPhase colorize gfilt oldContent t
      match reopen with
      | none => (t1, false, false)
      | some (nid, nc) =>
        let t2 := { t1 with position := 0, file_id := nid }
        let t3 := readPhase colorize gfilt nc true t2
        (t3, true, decide (t3.line_count ≠ oldCount))
    else
      let t3 := readPhase colorize gfilt oldContent false t
      (t3, false, decide (t3.line_count ≠ oldCount))

theorem rotNeeded_self (x : Option (Nat × Nat)) : rotNeeded x x = false := by
  cases x with
  | none => rfl
  | some a => simp [rotNeeded]

theorem processLine_posid (colorize : Str → Str) (gfilt : Str → Bool)
    (t : FileTracker) (p : Nat) (i : Option (Nat × Nat)) (line : Str) :
    processLine colorize gfilt { t with position := p, file_id := i } line
      = { processLine colorize gfilt t line with position := p, file_id := i } := by
  by_cases h : t.filter.getD gfilt (trimEnd line) = true <;>
    simp [processLine, pushAccepted, h]

theorem foldl_processLine_posid (colorize : Str → Str) (gfilt : Str → Bool) :
    ∀ (chunks : List Str) (t : FileTracker) (p : Nat) (i : Option (Nat × Nat)),
      chunks.foldl (processLine colorize gfilt) { t with position := p, file_id := i }
        = { chunks.foldl (processLine colorize gfilt) t with
            position := p, file_id := i } := by
  intro chunks
  induction chunks with
  | nil => intro t p i; rfl
  | cons ch chunks ih =>
    intro t p i
    simp only [List.foldl_cons, processLine_posid]
    exact ih (processLine colorize gfilt t ch) p i

theorem foldl_processLine_count_mono (colorize : Str → Str)
    (gfilt : Str → Bool) :
    ∀ (chunks : List Str) (t : FileTracker),
      t.line_count ≤ (chunks.foldl (processLine colorize gfilt) t).line_count := by
  intro chunks
  induction chunks with
  | nil => intro t; exact Nat.le_refl _
  | cons ch chunks ih =>
    intro t
    refine Nat.le_trans ?_ (ih (processLine colorize gfilt t ch))
    by_cases h : t.filter.getD gfilt (trimEnd ch) = true <;>
      simp [processLine, pushAccepted, h]

theorem drainPhase_then_reset (colorize : Str → Str) (gfilt : Str → Bool)
    (oldContent : Str) (t : FileTracker) (i : Option (Nat × Nat)) :
    { drainPhase colorize gfilt oldContent t with position := 0, file_id := i }
      = { (splitLines (oldContent.drop t.position)).foldl
            (processLine colorize gfilt) t with
          position := 0, file_id := i } := by
  by_cases hdr : t.position < oldContent.length
  · simp only [drainPhase, if_pos hdr]
  · simp only [drainPhase, if_neg hdr]
    have hnil : oldContent.drop t.position = [] :=
      List.drop_eq_nil_of_le (by omega)
    rw [hnil]
    rfl

theorem readPhase_from_zero (colorize : Str → Str) (gfilt : Str → Bool)
    (nc : Str) (u : FileTracker) (h0 : u.position = 0) :
    readPhase colorize gfilt nc true u
      = if 0 < nc.length then
          { (splitLines nc).foldl (processLine colorize gfilt) u with
            position := nc.length }
        else u := by
  simp only [readPhase, h0, List.drop_zero]
  by_cases hnc : 0 < nc.length
  · rw [if_pos hnc, if_pos hnc]
  · rw [if_neg hnc, if_neg hnc]
    rw [if_neg (by simp)]

/-- C5: on rotation — the identity at the tracked path differs from the
tracked identity and reopening the path succeeds — the poll reports a
rotation, the tracked identity becomes the new file's identity, the offset
is reset to 0 for the new file (ending the poll at the new file's size
after reading it from byte 0), the running line counter never decreases,
and the buffers are exactly those obtained by first appending the lines
still unread in the old handle beyond the offset and then the new file's
lines. -/
theorem rotation_drain_reset_identity (colorize : Str → Str)
    (gfilt : Str → Bool) (a b : Nat × Nat) (nid : Option (Nat × Nat))
    (oldContent nc : Str) (t : FileTracker)
    (hp : t.paused = false) (hfa : t.file_id = some a) (hab : a ≠ b) :
    (check_file_updates colorize gfilt (some b) oldContent
        (some (nid, nc)) t).2.1 = true ∧
    (check_file_updates colorize gfilt (some b) oldContent
        (some (nid, nc)) t).1.file_id = nid ∧
    (check_file_updates colorize gfilt (some b) oldContent
        (some (nid, nc)) t).1.position = nc.length ∧
    t.line_count ≤ (check_file_updates colorize gfilt (some b) oldContent
        (some (nid, nc)) t).1.line_count ∧
    (check_file_updates colorize gfilt (some b) oldContent
        (some (nid, nc)) t).1.raw_lines
      = ((splitLines (oldContent.drop t.position) ++ splitLines nc).foldl
          (processLine colorize gfilt) t).raw_lines ∧
    (check_file_updates colorize gfilt (some b) oldContent
        (some (nid, nc)) t).1.lines
      = ((splitLines (oldContent.drop t.position) ++ splitLines nc).foldl
          (processLine colorize gfilt) t).lines ∧
    (check_file_updates colorize gfilt (some b) oldContent
        (some (nid, nc)) t).1.line_count
      = ((splitLines (oldContent.drop t.position) ++ splitLines nc).foldl
          (processLine colorize gfilt) t).line_count := by
  have hrot : rotNeeded t.file_id (some b) = true := by
    rw [hfa]
    simp [rotNeeded, hab]
  have hshell : check_file_updates colorize gfilt (some b) oldContent
      (some (nid, nc)) t
      = (readPhase colorize gfilt nc true
          { drainPhase colorize gfilt oldContent t with
            position := 0, file_id := nid },
         true,
         decide ((readPhase colorize gfilt nc true
          { drainPhase colorize gfilt oldContent t with
            position := 0, file_id := nid }).line_count ≠ t.line_count)) := by
    simp only [check_file_updates, hp, Bool.false_eq_true, if_false, hrot,
      if_true]
  rw [hshell, drainPhase_then_reset,
    readPhase_from_zero colorize gfilt nc _ rfl]
  rw [List.foldl_append]
  by_cases hnc : 0 < nc.length
  · rw [if_pos hnc, foldl_processLine_posid]
    refine ⟨rfl, rfl, rfl, ?_, rfl, rfl, rfl⟩
    exact Nat.le_trans
      (foldl_processLine_count_mono colorize gfilt
        (splitLines (oldContent.drop t.position)) t)
      (foldl_processLine_count_mono colorize gfilt (splitLines nc) _)
  · have hncnil : nc = [] := List.length_eq_zero.mp (by omega)
    subst hncnil
    rw [if_neg hnc]
    refine ⟨rfl, rfl, rfl, ?_, rfl, rfl, rfl⟩
    exact foldl_processLine_count_mono colorize gfilt
      (splitLines (oldContent.drop t.position)) t

/-- C6: on in-place truncation — during a poll the file's size is strictly
below the tracked offset, the identity at the path is unchanged, and no
rotation occurred this poll — the multi-pane poll resets the offset to 0
and clears both the raw and the styled buffer, so the next poll re-reads
from byte 0. -/
theorem truncation_resets_offset_and_clears (colorize : Str → Str)
    (gfilt : Str → Bool) (oldContent : Str)
    (reopen : Option (Option (Nat × Nat) × Str)) (t : FileTracker)
    (hp : t.paused = false) (hsz : oldContent.length < t.position) :
    (check_file_updates colorize gfilt t.file_id oldContent reopen t).1.position
        = 0 ∧
    (check_file_updates colorize gfilt t.file_id oldContent reopen t).1.lines
        = [] ∧
    (check_file_updates colorize gfilt t.file_id oldContent reopen t).1.raw_lines
        = [] ∧
    (check_file_updates colorize gfilt t.file_id oldContent reopen t).2.1
        = false := by
  have hnlt : ¬ t.position < oldContent.length := by omega
  have hcond : oldContent.length < t.position ∧ True := ⟨hsz, trivial⟩
  simp only [check_file_updates, hp, Bool.false_eq_true, if_false,
    rotNeeded_self, readPhase, if_neg hnlt]
  rw [if_pos hcond]
  simp

/-- A concrete tracker used by the rotation witness: offset 2 into the old
file, identity `(1, 1)`. -/
def trkR : FileTracker :=
  ⟨2, [], [], 10, 7, false, some (1, 1), none, none⟩

/-- Witness for C5 at a concrete rotation: old content `"x\nab"` read up
to offset 2, new file `"new\n"` with identity `(1, 2)`. -/
theorem rotation_drain_reset_identity_witness :
    (check_file_updates id (fun _ => true) (some (1, 2)) ("x\nab".toList)
        (some (some (1, 2), ("new\n".toList))) trkR).2.1 = true ∧
    (check_file_updates id (fun _ => true) (some (1, 2)) ("x\nab".toList)
        (some (some (1, 2), ("new\n".toList))) trkR).1.file_id = some (1, 2) ∧
    (check_file_updates id (fun _ => true) (some (1, 2)) ("x\nab".toList)
        (some (some (1, 2), ("new\n".toList))) trkR).1.position
      = ("new\n".toList).length ∧
    trkR.line_count ≤ (check_file_updates id (fun _ => true) (some (1, 2))
        ("x\nab".toList) (some (some (1, 2), ("new\n".toList))) trkR).1.line_count ∧
    (check_file_updates id (fun _ => true) (some (1, 2)) ("x\nab".toList)
        (some (some (1, 2), ("new\n".toList))) trkR).1.raw_lines
      = ((splitLines (("x\nab".toList).drop trkR.position)
            ++ splitLines ("new\n".toList)).foldl
          (processLine id (fun _ => true)) trkR).raw_lines ∧
    (check_file_updates id (fun _ => true) (some (1, 2)) ("x\nab".toList)
        (some (some (1, 2), ("new\n".toList))) trkR).1.lines
      = ((splitLines (("x\nab".toList).drop trkR.position)
            ++ splitLines ("new\n".toList)).foldl
          (processLine id (fun _ => true)) trkR).lines ∧
    (check_file_updates id (fun _ => true) (some (1, 2)) ("x\nab".toList)
        (some (some (1, 2), ("new\n".toList))) trkR).1.line_count
      = ((splitLines (("x\nab".toList).drop trkR.position)
            ++ splitLines ("new\n".toList)).foldl
          (processLine id (fun _ => true)) trkR).line_count :=
  rotation_drain_reset_identity id (fun _ => true) (1, 1) (1, 2)
    (some (1, 2)) ("x\nab".toList) ("new\n".toList) trkR rfl rfl (by decide)

/-- A concrete tracker used by the truncation witness: offset 5 with a
non-empty buffer. -/
def trkT : FileTracker :=
  ⟨5, [("x".toList)], [("x".toList)], 10, 3, false, some (1, 1), none, none⟩

/-- Witness for C6 at a concrete truncation: the file shrank to `"ab"`
(2 bytes) below the tracked offset 5 with the identity unchanged. -/
theorem truncation_resets_offset_and_clears_witness :
    (check_file_updates id (fun _ => true) trkT.file_id ("ab".toList) none
        trkT).1.position = 0 ∧
    (check_file_updates id (fun _ => true) trkT.file_id ("ab".toList) none
        trkT).1.lines = [] ∧
    (check_file_updates id (fun _ => true) trkT.file_id ("ab".toList) none
        trkT).1.raw_lines = [] ∧
    (check_file_updates id (fun _ => true) trkT.file_id ("ab".toList) none
        trkT).2.1 = false :=
  truncation_resets_offset_and_clears id (fun _ => true) ("ab".toList) none
    trkT rfl (by decide)

/-! ## The colorizer (colorizer.rs, theme.rs)

Compiled rule patterns are external regexes and are modelled abstractly: a
line rule carries a matcher `Str → Bool` (`Regex::is_match` on the line),
a word rule carries a match-range finder `Str → List (Nat × Nat)`
(`Regex::find_iter`, start/end positions).  `is_inside_ansi_sequence`
(span detection by the fixed regex `\x1b\[[0-9;]*m.*?\x1b\[0m`) is likewise
carried as a function `Str → Nat → Bool`; colorizer.rs only uses its
boolean answer to choose between the two replacement forms. -/

/-- Decimal digit character of `n % 10` (the decimal rendering used by
`format!`). -/
def digitCh (n : Nat) : Char :=
  match n % 10 with
  | 0 => '0' | 1 => '1' | 2 => '2' | 3 => '3' | 4 => '4'
  | 5 => '5' | 6 => '6' | 7 => '7' | 8 => '8' | _ => '9'

/-- Fuel-bounded decimal rendering; fuel at least the digit count. -/
def natCharsAux : Nat → Nat → Str
  | 0, _ => []
  | fuel + 1, n => if n < 10 then [digitCh n] else natCharsAux fuel (n / 10) ++ [digitCh n]

/-- Decimal rendering of a natural number (`format!("{}", n)`). -/
def natChars (n : Nat) : Str := natCharsAux (n + 1) n

/-- `theme::Color` (theme.rs lines 23-27). -/
inductive ColorT where
  | xterm256 (n : Nat)
  | trueColor (r g b : Nat)

/-- `Color::to_ansi_fg` (theme.rs lines 30-35). -/
def ColorT.to_ansi_fg : ColorT → Str
  | .xterm256 n => escCh :: ("[38;5;".toList) ++ natChars n ++ ['m']
  | .trueColor r g b =>
    escCh :: ("[38;2;".toList) ++ natChars r ++ [';'] ++ natChars g ++ [';']
      ++ natChars b ++ ['m']

/-- A line rule: pattern (abstract matcher) and color. -/
structure LineRule where
  isMatch : Str → Bool
  color : ColorT

/-- A word rule: pattern (abstract match-range finder) and color. -/
structure WordRule where
  fnd : Str → List (Nat × Nat)
  color : ColorT

/-- `Colorizer` (colorizer.rs lines 4-20) together with its compiled
theme: `no_color`, optional base color, ordered line and word rules, and
the `is_inside_ansi_sequence` span test. -/
structure Colorizer where
  no_color : Bool
  base_color : Option Nat
  line_rules : List LineRule
  word_rules : List WordRule
  insideAnsi : Str → Nat → Bool

/-- `wrap_entire_line` (colorizer.rs lines 49-51). -/
def wrap_entire_line (color : ColorT) (line : Str) : Str :=
  color.to_ansi_fg ++ line ++ ansiReset

/-- `wrap_with_base_restore` (colorizer.rs lines 76-84): wrap the match in
the rule color, then restore to the base color or default foreground. -/
def wrap_with_base_restore (base : Option Nat) (seg : Str) (color : ColorT) : Str :=
  color.to_ansi_fg ++ seg ++
    (match base with
     | some b => ColorT.to_ansi_fg (.xterm256 b)
     | none => escCh :: ("[39m".toList))

/-- `Regex::replace_all` over precomputed match ranges: text between
matches is copied, each matched segment is replaced by `rep`. -/
def replaceAllGo (text : Str) (rep : Nat → Str → Str) :
    List (Nat × Nat) → Nat → Str
  | [], cur => text.drop cur
  | (s, e) :: rest, cur =>
    ((text.drop cur).take (s - cur)) ++ rep s ((text.drop s).take (e - s))
      ++ replaceAllGo text rep rest e

/-- `apply_word_rule` (colorizer.rs lines 53-65): every match is kept
verbatim when its start lies inside an already-styled span, otherwise it
is wrapped in the rule color with a base restore. -/
def apply_word_rule (cz : Colorizer) (text : Str) (ru : WordRule) : Str :=
  replaceAllGo text
    (fun s seg =>
      if cz.insideAnsi text s then seg
      else wrap_with_base_restore cz.base_color seg ru.color)
    (ru.fnd text) 0

/-- `colorize_line` (colorizer.rs lines 22-47): `no_color` short-circuits;
the first matching line rule wraps the whole line and returns; otherwise
every word rule is applied in order and an optional base color wraps the
result. -/
def colorize_line (cz : Colorizer) (line : Str) : Str :=
  if cz.no_color then line
  else
    match cz.line_rules.find? (fun ru => ru.isMatch line) with
    | some ru => wrap_entire_line ru.color line
    | none =>
      let result := cz.word_rules.foldl (apply_word_rule cz) line
      match cz.base_color with
      | some b => ColorT.to_ansi_fg (.xterm256 b) ++ result ++ ansiReset
      | none => result

/-! ### Escape stripping -/

/-- Remove escape sequences (introducer through the first ASCII-alphabetic
character), keeping every other character. -/
def stripEscGo : Str → Bool → Str
  | [], _ => []
  | c :: cs, true => stripEscGo cs (!(isAsciiAlpha c))
  | c :: cs, false =>
    if c = escCh then stripEscGo cs true else c :: stripEscGo cs false

def stripEsc (s : Str) : Str := stripEscGo s false

/-- The in-escape state after scanning `s` from state `b`. -/
def escStateF : Str → Bool → Bool
  | [], b => b
  | c :: cs, true => escStateF cs (!(isAsciiAlpha c))
  | c :: cs, false =>
    if c = escCh then escStateF cs true else escStateF cs false

/-- `s` contains no escape introducer. -/
def noEscB (s : Str) : Bool := s.all (fun c => !(c == escCh))

/-- A complete escape sequence: introducer, non-alphabetic body, one
terminating ASCII-alphabetic character. -/
def EscSeqOk (e : Str) : Prop :=
  ∃ body last, e = escCh :: body ++ [last] ∧
    (∀ c ∈ body, isAsciiAlpha c = false) ∧ isAsciiAlpha last = true

theorem stripEscGo_append (u : Str) :
    ∀ (v : Str) (b : Bool),
      stripEscGo (u ++ v) b = stripEscGo u b ++ stripEscGo v (escStateF u b) := by
  induction u with
  | nil => intro v b; rfl
  | cons c cs ih =>
    intro v b
    cases b with
    | true =>
      simp only [List.cons_append, stripEscGo, escStateF, List.append_eq]
      exact ih v (!(isAsciiAlpha c))
    | false =>
      by_cases hc : c = escCh
      · simp only [List.cons_append, stripEscGo, escStateF, if_pos hc,
          List.append_eq]
        exact ih v true
      · simp only [List.cons_append, stripEscGo, escStateF, if_neg hc,
          List.append_eq, List.cons_append]
        rw [ih v false]

theorem escStateF_append (u : Str) :
    ∀ (v : Str) (b : Bool),
      escStateF (u ++ v) b = escStateF v (escStateF u b) := by
  induction u with
  | nil => intro v b; rfl
  | cons c cs ih =>
    intro v b
    cases b with
    | true =>
      simp only [List.cons_append, escStateF, List.append_eq]
      exact ih v (!(isAsciiAlpha c))
    | false =>
      by_cases hc : c = escCh
      · simp only [List.cons_append, escStateF, if_pos hc, List.append_eq]
        exact ih v true
      · simp only [List.cons_append, escStateF, if_neg hc, List.append_eq]
        exact ih v false

theorem noEsc_strip (u : Str) (h : noEscB u = true) :
    stripEscGo u false = u ∧ escStateF u false = false := by
  induction u with
  | nil => exact ⟨rfl, rfl⟩
  | cons c cs ih =>
    simp only [noEscB, List.all_cons, Bool.and_eq_true, Bool.not_eq_true'] at h
    have hc : ¬ c = escCh := by
      intro hc
      subst hc
      simp at h
    have ihr := ih (by simp [noEscB, h.2])
    simp only [stripEscGo, escStateF, if_neg hc, ihr.1, ihr.2, and_self]

theorem escSeq_strip (e : Str) (he : EscSeqOk e) :
    stripEscGo e false = [] ∧ escStateF e false = false := by
  obtain ⟨body, last, hdef, hbody, hlast⟩ := he
  subst hdef
  have hesc : stripEscGo (escCh :: body ++ [last]) false
      = stripEscGo (body ++ [last]) true := by
    simp [stripEscGo]
  have hesc2 : escStateF (escCh :: body ++ [last]) false
      = escStateF (body ++ [last]) true := by
    simp [escStateF]
  rw [hesc, hesc2]
  clear hesc hesc2
  induction body with
  | nil => simp [stripEscGo, escStateF, hlast]
  | cons c cs ih =>
    have hc := hbody c (by simp)
    simp only [List.cons_append, stripEscGo, escStateF, hc, Bool.not_false]
    exact ih (fun x hx => hbody x (by simp [hx]))

theorem escSeq_strip_append (e v : Str) (he : EscSeqOk e) :
    stripEscGo (e ++ v) false = stripEscGo v false ∧
      escStateF (e ++ v) false = escStateF v false := by
  obtain ⟨h1, h2⟩ := escSeq_strip e he
  rw [stripEscGo_append, escStateF_append, h1, h2]
  simp

theorem digitCh_digit (n : Nat) :
    48 ≤ (digitCh n).toNat ∧ (digitCh n).toNat ≤ 57 := by
  have h : n % 10 < 10 := Nat.mod_lt _ (by norm_num)
  rcases (by omega :
    n % 10 = 0 ∨ n % 10 = 1 ∨ n % 10 = 2 ∨ n % 10 = 3 ∨ n % 10 = 4 ∨
    n % 10 = 5 ∨ n % 10 = 6 ∨ n % 10 = 7 ∨ n % 10 = 8 ∨ n % 10 = 9) with
    h' | h' | h' | h' | h' | h' | h' | h' | h' | h' <;>
    simp [digitCh, h']

theorem not_alpha_of_digit {c : Char} (h1 : 48 ≤ c.toNat) (h2 : c.toNat ≤ 57) :
    isAsciiAlpha c = false := by
  simp only [isAsciiAlpha, Bool.or_eq_false_iff, Bool.and_eq_false_iff]
  constructor <;> [left; left] <;> simp <;> omega

theorem natCharsAux_digits :
    ∀ (fuel n : Nat) (c : Char), c ∈ natCharsAux fuel n →
      48 ≤ c.toNat ∧ c.toNat ≤ 57 := by
  intro fuel
  induction fuel with
  | zero => intro n c hc; simp [natCharsAux] at hc
  | succ k ih =>
    intro n c hc
    by_cases hn : n < 10
    · simp only [natCharsAux, if_pos hn, List.mem_singleton] at hc
      subst hc
      exact digitCh_digit n
    · simp only [natCharsAux, if_neg hn, List.mem_append,
        List.mem_singleton] at hc
      rcases hc with hc | hc
      · exact ih (n / 10) c hc
      · subst hc
        exact digitCh_digit n

theorem natChars_not_alpha (n : Nat) :
    ∀ c ∈ natChars n, isAsciiAlpha c = false := by
  intro c hc
  obtain ⟨h1, h2⟩ := natCharsAux_digits (n + 1) n c hc
  exact not_alpha_of_digit h1 h2

theorem mem_fg_head_not_alpha {c : Char}
    (hc : c ∈ (['[', '3', '8', ';', '5', ';'] : Str) ∨
      c ∈ (['[', '3', '8', ';', '2', ';'] : Str) ∨ c = ';') :
    isAsciiAlpha c = false := by
  rcases hc with hc | hc | hc
  · simp only [List.mem_cons, List.not_mem_nil, or_false] at hc
    rcases hc with rfl | rfl | rfl | rfl | rfl | rfl <;> decide
  · simp only [List.mem_cons, List.not_mem_nil, or_false] at hc
    rcases hc with rfl | rfl | rfl | rfl | rfl | rfl <;> decide
  · subst hc; decide

theorem to_ansi_fg_escSeq (color : ColorT) : EscSeqOk color.to_ansi_fg := by
  cases color with
  | xterm256 n =>
    refine ⟨("[38;5;".toList) ++ natChars n, 'm',
      by simp [ColorT.to_ansi_fg], ?_, by decide⟩
    intro c hc
    rcases List.mem_append.mp hc with hc | hc
    · exact mem_fg_head_not_alpha (Or.inl hc)
    · exact natChars_not_alpha n c hc
  | trueColor r g b =>
    refine ⟨("[38;2;".toList) ++ natChars r ++ [';'] ++ natChars g ++ [';']
      ++ natChars b, 'm', by simp [ColorT.to_ansi_fg], ?_, by decide⟩
    intro c hc
    simp only [List.append_assoc, List.mem_append, List.mem_singleton] at hc
    rcases hc with hc | hc | hc | hc | hc | hc
    · exact mem_fg_head_not_alpha (Or.inr (Or.inl hc))
    · exact natChars_not_alpha r c hc
    · exact mem_fg_head_not_alpha (Or.inr (Or.inr hc))
    · exact natChars_not_alpha g c hc
    · exact mem_fg_head_not_alpha (Or.inr (Or.inr hc))
    · exact natChars_not_alpha b c hc

theorem ansiReset_escSeq : EscSeqOk ansiReset :=
  ⟨['[', '0'], 'm', rfl, by decide, by decide⟩

theorem default_restore_escSeq : EscSeqOk (escCh :: ("[39m".toList)) :=
  ⟨['[', '3', '9'], 'm', rfl, by decide, by decide⟩

theorem stripEscGo_ansiReset (b : Bool) : stripEscGo ansiReset b = [] := by
  cases b <;> decide

theorem strip_fg_wrap (fg : Str) (hfg : EscSeqOk fg) (res : Str) :
    stripEscGo (fg ++ res ++ ansiReset) false = stripEscGo res false := by
  obtain ⟨hf1, hf2⟩ := escSeq_strip fg hfg
  rw [stripEscGo_append, stripEscGo_append, hf1, hf2, stripEscGo_ansiReset]
  simp

/-- Well-formedness of one word rule's match ranges on `text`, seen from
position `cur`: ordered, within bounds, each match starting outside any
escape sequence and containing no escape introducer.  Matches confined to
the visible portions of the text satisfy this. -/
def RangesOK (text : Str) : Nat → List (Nat × Nat) → Prop
  | _, [] => True
  | cur, (s, e) :: rest =>
    cur ≤ s ∧ s ≤ e ∧ e ≤ text.length ∧
    escStateF (text.take s) false = false ∧
    noEscB ((text.drop s).take (e - s)) = true ∧
    RangesOK text e rest

theorem replaceAll_strip (text : Str) (rep : Nat → Str → Str)
    (hrep : ∀ (s : Nat) (seg : Str), noEscB seg = true →
      stripEscGo (rep s seg) false = seg ∧ escStateF (rep s seg) false = false) :
    ∀ (ranges : List (Nat × Nat)) (cur : Nat),
      RangesOK text cur ranges →
      escStateF (text.take cur) false = false →
      stripEscGo (replaceAllGo text rep ranges cur) false
        = stripEscGo (text.drop cur) false := by
  intro ranges
  induction ranges with
  | nil => intro cur _ _; rfl
  | cons r rest ih =>
    obtain ⟨s, e⟩ := r
    intro cur hok hst
    obtain ⟨hcs, hse, hel, hstS, hseg, hrest⟩ := hok
    obtain ⟨hsg1, hsg2⟩ := noEsc_strip _ hseg
    obtain ⟨hrp1, hrp2⟩ := hrep s _ hseg
    have htakeS : text.take s
        = text.take cur ++ (text.drop cur).take (s - cur) := by
      conv_lhs => rw [show s = cur + (s - cur) by omega]
      exact List.take_add text cur (s - cur)
    have hstA : escStateF ((text.drop cur).take (s - cur)) false = false := by
      have h1 := escStateF_append (text.take cur)
        ((text.drop cur).take (s - cur)) false
      rw [← htakeS, hst, hstS] at h1
      exact h1.symm
    have htakeE : text.take e = text.take s ++ (text.drop s).take (e - s) := by
      conv_lhs => rw [show e = s + (e - s) by omega]
      exact List.take_add text s (e - s)
    have hstE : escStateF (text.take e) false = false := by
      rw [htakeE, escStateF_append, hstS, hsg2]
    have hdropCur : text.drop cur
        = (text.drop cur).take (s - cur) ++ text.drop s := by
      conv_lhs => rw [← List.take_append_drop (s - cur) (text.drop cur)]
      congr 1
      rw [List.drop_drop]
      congr 1
      omega
    have hdropS : text.drop s
        = (text.drop s).take (e - s) ++ text.drop e := by
      conv_lhs => rw [← List.take_append_drop (e - s) (text.drop s)]
      congr 1
      rw [List.drop_drop]
      congr 1
      omega
    have hLHS : stripEscGo (replaceAllGo text rep ((s, e) :: rest) cur) false
        = stripEscGo ((text.drop cur).take (s - cur)) false
            ++ ((text.drop s).take (e - s)
            ++ stripEscGo (replaceAllGo text rep rest e) false) := by
      show stripEscGo (((text.drop cur).take (s - cur)
          ++ rep s ((text.drop s).take (e - s)))
          ++ replaceAllGo text rep rest e) false = _
      rw [stripEscGo_append, stripEscGo_append, hstA, hrp1,
        escStateF_append, hstA, hrp2]
      simp
    rw [hLHS, ih e hrest hstE]
    conv_rhs => rw [hdropCur]
    rw [stripEscGo_append, hstA]
    conv_rhs => rw [hdropS]
    rw [stripEscGo_append, hsg1, hsg2]

theorem apply_word_rule_strip (cz : Colorizer) (ru : WordRule) (text : Str)
    (hok : RangesOK text 0 (ru.fnd text)) :
    stripEsc (apply_word_rule cz text ru) = stripEsc text := by
  unfold apply_word_rule stripEsc
  have h := replaceAll_strip text
    (fun s seg =>
      if cz.insideAnsi text s then seg
      else wrap_with_base_restore cz.base_color seg ru.color)
    ?_ (ru.fnd text) 0 hok rfl
  · rw [h, List.drop_zero]
  · intro s seg hseg
    by_cases hin : cz.insideAnsi text s
    · simp only [if_pos hin]
      exact noEsc_strip seg hseg
    · simp only [if_neg hin]
      unfold wrap_with_base_restore
      have hfg := to_ansi_fg_escSeq ru.color
      have hrst : EscSeqOk (match cz.base_color with
          | some b => ColorT.to_ansi_fg (.xterm256 b)
          | none => escCh :: ("[39m".toList)) := by
        cases cz.base_color with
        | some b => exact to_ansi_fg_escSeq _
        | none => exact default_restore_escSeq
      obtain ⟨hf1, hf2⟩ := escSeq_strip _ hfg
      obtain ⟨hr1, hr2⟩ := escSeq_strip _ hrst
      obtain ⟨hs1, hs2⟩ := noEsc_strip seg hseg
      constructor
      · rw [stripEscGo_append, stripEscGo_append, escStateF_append,
          hf1, hf2, hs1, hs2, hr1]
        simp
      · rw [escStateF_append, escStateF_append, hf2, hs2, hr2]

theorem foldl_apply_word_rule_strip (cz : Colorizer) :
    ∀ (rules : List WordRule) (text : Str),
      (∀ ru ∈ rules, ∀ t : Str, RangesOK t 0 (ru.fnd t)) →
      stripEsc (rules.foldl (apply_word_rule cz) text) = stripEsc text := by
  intro rules
  induction rules with
  | nil => intro text _; rfl
  | cons ru rules ih =>
    intro text hwf
    simp only [List.foldl_cons]
    rw [ih (apply_word_rule cz text ru) (fun r hr t => hwf r (by simp [hr]) t)]
    exact apply_word_rule_strip cz ru text (hwf ru (by simp) text)

/-- C4, amended: `colorize_line` only wraps spans with complete styling
sequences, so for every escape-free input line, and every theme whose word
rules match only within the visible (non-escape) portions of the text they
are applied to, stripping all escape sequences from
`colorize_line cz line` yields exactly `line` — raw offsets and styled
visible-column offsets coincide.  (Without the visible-match restriction
the property fails: a word rule matching inside an earlier rule's styling
codes makes the output's visible characters differ — see the
counterexample.) -/
theorem colorize_line_preserves_visible (cz : Colorizer) (line : Str)
    (hline : noEscB line = true)
    (hwf : ∀ ru ∈ cz.word_rules, ∀ t : Str, RangesOK t 0 (ru.fnd t)) :
    stripEsc (colorize_line cz line) = line := by
  have hnl := (noEsc_strip line hline).1
  unfold colorize_line
  by_cases hnc : cz.no_color
  · simp only [if_pos hnc]
    exact hnl
  · simp only [if_neg hnc]
    cases hfind : cz.line_rules.find? (fun ru => ru.isMatch line) with
    | some ru =>
      unfold wrap_entire_line stripEsc
      rw [strip_fg_wrap _ (to_ansi_fg_escSeq ru.color)]
      exact hnl
    | none =>
      have hfold := foldl_apply_word_rule_strip cz cz.word_rules line hwf
      cases hb : cz.base_color with
      | none =>
        rw [hfold]
        exact hnl
      | some b =>
        unfold stripEsc
        rw [strip_fg_wrap _ (to_ansi_fg_escSeq (.xterm256 b))]
        rw [← stripEsc, hfold]
        exact hnl

/-! ### Literal match ranges (`Regex::find_iter` for a literal pattern) -/

/-- Fuel-bounded scan for the leftmost non-overlapping occurrences of a
literal `needle`; positions are character positions, which coincide with
the byte positions reported by the regex engine on ASCII inputs. -/
def findRangesAux (needle : Str) : Nat → Str → Nat → List (Nat × Nat)
  | 0, _, _ => []
  | _ + 1, [], _ => []
  | fuel + 1, l@(_ :: rest), i =>
    if strStarts l needle then
      (i, i + needle.length)
        :: findRangesAux needle fuel (l.drop needle.length) (i + needle.length)
    else findRangesAux needle fuel rest (i + 1)

def findRanges (needle hay : Str) : List (Nat × Nat) :=
  findRangesAux needle (hay.length + 1) hay 0

/-- The colorizer of the C4 counterexample: no base color, two word rules
with literal patterns `"38y"` and `"5;5"`.  `insideAnsi` is constantly
`false`, which agrees with `is_inside_ansi_sequence` on every text arising
here: its span regex requires a `\x1b[0m` terminator, and word-rule wraps
end in `\x1b[39m`, so no span is ever found. -/
def czEx : Colorizer :=
  { no_color := false, base_color := none, line_rules := [],
    word_rules :=
      [⟨fun t => findRanges ("38y".toList) t, .xterm256 5⟩,
       ⟨fun t => findRanges ("5;5".toList) t, .xterm256 1⟩],
    insideAnsi := fun _ _ => false }

/-- Counterexample to C4 as stated: on the escape-free line `"x38y"`, the
first word rule wraps `"38y"` in `\x1b[38;5;5m…\x1b[39m`; the second
rule's pattern `"5;5"` then matches inside those styling codes (the span
test misses it because the wrap ends in `\x1b[39m`, not `\x1b[0m`), and
the inserted wrap splits the escape sequence, changing the visible
characters: stripping escapes from the output yields `"x5;5m38y"`, not
`"x38y"`. -/
theorem colorize_line_alters_visible_counterexample :
    stripEsc (colorize_line czEx ("x38y".toList)) ≠ ("x38y".toList) := by
  decide

/-- The colorizer of the C4 witness: a base color and one word rule that
matches nothing. -/
def czW : Colorizer :=
  { no_color := false, base_color := some 2, line_rules := [],
    word_rules := [⟨fun _ => [], .xterm256 3⟩],
    insideAnsi := fun _ _ => false }

/-- Witness for C4 (amended) on the line `"ab"`. -/
theorem colorize_line_preserves_visible_witness :
    noEscB ("ab".toList) = true ∧
      stripEsc (colorize_line czW ("ab".toList)) = ("ab".toList) :=
  ⟨by decide,
    colorize_line_preserves_visible czW ("ab".toList) (by decide)
      (fun ru hr t => by
        rcases List.mem_singleton.mp hr with rfl
        trivial)⟩

/-- C3: the first line rule whose pattern matches the line wins — the
whole line is wrapped in that rule's color plus a reset and returned
immediately, and no word rule is applied (the result is independent of the
word-rule list). -/
theorem line_rule_first_match_wins (cz : Colorizer) (line : Str)
    (ru : LineRule) (hnc : cz.no_color = false)
    (hfind : cz.line_rules.find? (fun r => r.isMatch line) = some ru) :
    colorize_line cz line = ru.color.to_ansi_fg ++ line ++ ansiReset ∧
      ∀ ws : List WordRule,
        colorize_line { cz with word_rules := ws } line
          = colorize_line cz line := by
  have h1 : colorize_line cz line = wrap_entire_line ru.color line := by
    simp only [colorize_line, hnc, Bool.false_eq_true, if_false, hfind]
  constructor
  · rw [h1]
    rfl
  · intro ws
    have h2 : colorize_line { cz with word_rules := ws } line
        = wrap_entire_line ru.color line := by
      simp only [colorize_line, hnc, Bool.false_eq_true, if_false, hfind]
    rw [h1, h2]

/-- The line rule of the C3 witness: matches lines containing `"ERR"`. -/
def ruleL : LineRule := ⟨fun l => containsStr l ("ERR".toList), .xterm256 1⟩

/-- The colorizer of the C3 witness. -/
def czL : Colorizer :=
  { no_color := false, base_color := some 2, line_rules := [ruleL],
    word_rules := [⟨fun _ => [], .xterm256 3⟩],
    insideAnsi := fun _ _ => false }

/-- Witness for C3 on the line `"ERR x"` (the word-rule independence
instantiated at the empty word-rule list). -/
theorem line_rule_first_match_wins_witness :
    colorize_line czL ("ERR x".toList)
        = ColorT.to_ansi_fg (.xterm256 1) ++ ("ERR x".toList) ++ ansiReset ∧
      colorize_line { czL with word_rules := [] } ("ERR x".toList)
        = colorize_line czL ("ERR x".toList) :=
  ⟨(line_rule_first_match_wins czL ("ERR x".toList) ruleL rfl rfl).1,
   (line_rule_first_match_wins czL ("ERR x".toList) ruleL rfl rfl).2 []⟩

/-! ## `highlight_search_matches` (C9) -/

/-- Is visible position `pos` covered by any match range
(`visible_pos >= s && visible_pos < e`)? -/
def inR (ranges : List (Nat × Nat)) (pos : Nat) : Bool :=
  ranges.any (fun r => decide (r.1 ≤ pos) && decide (pos < r.2))

/-- Reverse video on, `"\x1b[7m"`. -/
def rvOn : Str := [escCh, '[', '7', 'm']

/-- Reverse video off, `"\x1b[27m"`. -/
def rvOff : Str := [escCh, '[', '2', '7', 'm']

/-- The character walk of `highlight_search_matches`
(tail.rs lines 1256-1295) with the state (visible position, in-escape,
in-highlight) explicit; a trailing reverse-off is appended when the walk
ends highlighted. -/
def hsmGo (ranges : List (Nat × Nat)) : Str → Nat → Bool → Bool → Str
  | [], _, _, inHl => if inHl then rvOff else []
  | c :: cs, pos, true, inHl => c :: hsmGo ranges cs pos (!(isAsciiAlpha c)) inHl
  | c :: cs, pos, false, inHl =>
    if c = escCh then c :: hsmGo ranges cs pos true inHl
    else if isCtrl c then c :: hsmGo ranges cs pos false inHl
    else
      if inR ranges pos && !inHl then
        rvOn ++ c :: hsmGo ranges cs (pos + 1) false true
      else if !(inR ranges pos) && inHl then
        rvOff ++ c :: hsmGo ranges cs (pos + 1) false false
      else c :: hsmGo ranges cs (pos + 1) false inHl

/-- `highlight_search_matches` (tail.rs lines 1243-1296), over the
precomputed match ranges of the pattern on the raw line. -/
def highlight_search_matches (ranges : List (Nat × Nat)) (colored : Str) : Str :=
  if ranges.isEmpty then colored else hsmGo ranges colored 0 false false

/-- Read off the visible characters of a styled string, each paired with
whether it lies under an active reverse-video wrapper: escape sequences
are parsed whole, `ESC[7m` turns highlighting on and `ESC[27m` off.  The
`acc` state holds the reversed body of an escape sequence in progress. -/
def annotGo : Str → Option Str → Bool → List (Char × Bool)
  | [], _, _ => []
  | c :: cs, some acc, hl =>
    if isAsciiAlpha c then
      if (c :: acc).reverse = ['[', '7', 'm'] then annotGo cs none true
      else if (c :: acc).reverse = ['[', '2', '7', 'm'] then annotGo cs none false
      else annotGo cs none hl
    else annotGo cs (some (c :: acc)) hl
  | c :: cs, none, hl =>
    if c = escCh then annotGo cs (some []) hl
    else if isCtrl c then annotGo cs none hl
    else (c, hl) :: annotGo cs none hl

/-- No escape sequence of `s` (scanned from escape state `acc`) is a
reverse-video toggle; true of any colorized form, whose sequences are all
color codes or resets. -/
def noRV : Str → Option Str → Bool
  | [], _ => true
  | c :: cs, some acc =>
    if isAsciiAlpha c then
      decide ((c :: acc).reverse ≠ ['[', '7', 'm']) &&
        decide ((c :: acc).reverse ≠ ['[', '2', '7', 'm']) && noRV cs none
    else noRV cs (some (c :: acc))
  | c :: cs, none =>
    if c = escCh then noRV cs (some []) else noRV cs none

/-- The visible characters of `s` with their positions annotated by range
membership. -/
def visAnnotGo (ranges : List (Nat × Nat)) : Str → Nat → Bool → List (Char × Bool)
  | [], _, _ => []
  | c :: cs, pos, true => visAnnotGo ranges cs pos (!(isAsciiAlpha c))
  | c :: cs, pos, false =>
    if c = escCh then visAnnotGo ranges cs pos true
    else if isCtrl c then visAnnotGo ranges cs pos false
    else (c, inR ranges pos) :: visAnnotGo ranges cs (pos + 1) false

/-- The visible characters of a styled string (not in an escape sequence,
not control). -/
def visCharsGo : Str → Bool → Str
  | [], _ => []
  | c :: cs, true => visCharsGo cs (!(isAsciiAlpha c))
  | c :: cs, false =>
    if c = escCh then visCharsGo cs true
    else if isCtrl c then visCharsGo cs false
    else c :: visCharsGo cs false

def visChars (s : Str) : Str := visCharsGo s false

/-- Annotate a plain visible string by range membership of each index. -/
def annotOfVis (ranges : List (Nat × Nat)) : Str → Nat → List (Char × Bool)
  | [], _ => []
  | c :: cs, pos => (c, inR ranges pos) :: annotOfVis ranges cs (pos + 1)

theorem annot_rvOn_cons (X : Str) (hl : Bool) :
    annotGo (rvOn ++ X) none hl = annotGo X none true := rfl

theorem annot_rvOff_cons (X : Str) (hl : Bool) :
    annotGo (rvOff ++ X) none hl = annotGo X none false := rfl

theorem annot_rvOff_none (hl : Bool) : annotGo rvOff none hl = [] := rfl

theorem annot_rvOff_some (acc : Str) (hl : Bool) :
    annotGo rvOff (some acc) hl = [] := by
  show (if ('m' :: '7' :: '2' :: '[' :: escCh :: acc).reverse = ['[', '7', 'm']
      then annotGo [] none true
      else if ('m' :: '7' :: '2' :: '[' :: escCh :: acc).reverse
          = ['[', '2', '7', 'm']
      then annotGo [] none false
      else annotGo [] none hl) = []
  simp only [annotGo, ite_self]

theorem visAnnotGo_eq_annotOfVis (ranges : List (Nat × Nat)) :
    ∀ (s : Str) (pos : Nat) (b : Bool),
      visAnnotGo ranges s pos b = annotOfVis ranges (visCharsGo s b) pos := by
  intro s
  induction s with
  | nil => intro pos b; cases b <;> rfl
  | cons c cs ih =>
    intro pos b
    cases b with
    | true =>
      simp only [visAnnotGo, visCharsGo]
      exact ih pos (!(isAsciiAlpha c))
    | false =>
      by_cases hc : c = escCh
      · simp only [visAnnotGo, visCharsGo, if_pos hc]
        exact ih pos true
      · by_cases hct : isCtrl c
        · simp only [visAnnotGo, visCharsGo, if_neg hc, hct, if_true]
          exact ih pos false
        · simp only [visAnnotGo, visCharsGo, if_neg hc, hct,
            Bool.false_eq_true, if_false, annotOfVis]
          rw [ih (pos + 1) false]

theorem hsmGo_vis (ranges : List (Nat × Nat)) (c : Char) (cs : Str)
    (pos : Nat) (inHl : Bool) (hc : ¬ c = escCh) (hct : isCtrl c = false) :
    hsmGo ranges (c :: cs) pos false inHl
      = (if inR ranges pos && !inHl then
           rvOn ++ c :: hsmGo ranges cs (pos + 1) false true
         else if !(inR ranges pos) && inHl then
           rvOff ++ c :: hsmGo ranges cs (pos + 1) false false
         else c :: hsmGo ranges cs (pos + 1) false inHl) := by
  simp only [hsmGo, if_neg hc, hct, Bool.false_eq_true, if_false]

theorem annotGo_vis (c : Char) (cs : Str) (hl : Bool)
    (hc : ¬ c = escCh) (hct : isCtrl c = false) :
    annotGo (c :: cs) none hl = (c, hl) :: annotGo cs none hl := by
  simp only [annotGo, if_neg hc, hct, Bool.false_eq_true, if_false]

theorem visAnnotGo_vis (ranges : List (Nat × Nat)) (c : Char) (cs : Str)
    (pos : Nat) (hc : ¬ c = escCh) (hct : isCtrl c = false) :
    visAnnotGo ranges (c :: cs) pos false
      = (c, inR ranges pos) :: visAnnotGo ranges cs (pos + 1) false := by
  simp only [visAnnotGo, if_neg hc, hct, Bool.false_eq_true, if_false]

theorem annot_hsmGo (ranges : List (Nat × Nat)) :
    ∀ (s : Str) (accOpt : Option Str) (pos : Nat) (inHl : Bool),
      noRV s accOpt = true →
      annotGo (hsmGo ranges s pos accOpt.isSome inHl) accOpt inHl
        = visAnnotGo ranges s pos accOpt.isSome := by
  intro s
  induction s with
  | nil =>
    intro accOpt pos inHl _
    cases accOpt with
    | none =>
      cases inHl with
      | false => rfl
      | true => exact annot_rvOff_none true
    | some acc =>
      cases inHl with
      | false => rfl
      | true => exact annot_rvOff_some acc true
  | cons c cs ih =>
    intro accOpt pos inHl hno
    cases accOpt with
    | some acc =>
      by_cases ha : isAsciiAlpha c = true
      · simp only [noRV, if_pos ha, Bool.and_eq_true, decide_eq_true_eq] at hno
        obtain ⟨⟨h7, h27⟩, hno'⟩ := hno
        simp only [Option.isSome_some, hsmGo, annotGo, if_pos ha,
          if_neg h7, if_neg h27, ha, Bool.not_true]
        have := ih none pos inHl hno'
        simp only [Option.isSome_none] at this
        simpa [visAnnotGo, ha] using this
      · have ha' : isAsciiAlpha c = false := by
          cases h : isAsciiAlpha c
          · rfl
          · exact absurd h ha
        simp only [noRV, ha', Bool.false_eq_true, if_false] at hno
        simp only [Option.isSome_some, hsmGo, annotGo, ha',
          Bool.false_eq_true, if_false]
        have := ih (some (c :: acc)) pos inHl hno
        simp only [Option.isSome_some] at this
        simpa [visAnnotGo, ha', Bool.not_false] using this
    | none =>
      by_cases hc : c = escCh
      · simp only [noRV, if_pos hc] at hno
        simp only [Option.isSome_none, hsmGo, if_pos hc, annotGo, if_pos hc]
        have := ih (some []) pos inHl hno
        simp only [Option.isSome_some] at this
        simpa [visAnnotGo, hc] using this
      · simp only [noRV, if_neg hc] at hno
        by_cases hct : isCtrl c = true
        · simp only [Option.isSome_none, hsmGo, if_neg hc, hct, if_true,
            annotGo, if_neg hc]
          have := ih none pos inHl hno
          simp only [Option.isSome_none] at this
          simpa [visAnnotGo, hc, hct] using this
        · have hct' : isCtrl c = false := by
            cases h : isCtrl c
            · rfl
            · exact absurd h hct
          have ihT := ih none (pos + 1) true hno
          have ihF := ih none (pos + 1) false hno
          simp only [Option.isSome_none] at ihT ihF
          simp only [Option.isSome_none]
          rw [hsmGo_vis ranges c cs pos inHl hc hct',
            visAnnotGo_vis ranges c cs pos hc hct']
          by_cases hsh : inR ranges pos = true
          · rw [hsh]
            cases inHl with
            | false =>
              rw [if_pos (by decide), annot_rvOn_cons, annotGo_vis c _ true hc hct',
                ihT]
            | true =>
              rw [if_neg (by decide), if_neg (by decide),
                annotGo_vis c _ true hc hct', ihT]
          · have hsh' : inR ranges pos = false := by
              cases h : inR ranges pos
              · rfl
              · exact absurd h hsh
            rw [hsh']
            cases inHl with
            | false =>
              rw [if_neg (by decide), if_neg (by decide),
                annotGo_vis c _ false hc hct', ihF]
            | true =>
              rw [if_neg (by decide), if_pos (by decide), annot_rvOff_cons,
                annotGo_vis c _ false hc hct', ihF]

/-- C9: for the raw line `"error: boom"` and search pattern `"error"`,
`highlight_search_matches` applied to any colorized form of that line —
any string whose visible characters are exactly `"error: boom"` and whose
escape sequences carry no reverse-video toggle of their own (colorized
forms contain only color and reset codes) — wraps exactly the first 5
visible columns in reverse video: reading the output back, the visible
characters `e r r o r` are highlighted and `: b o o m` (and the space)
are not, regardless of any base or rule color already wrapping the text. -/
theorem search_highlight_wraps_first_five (s : Str)
    (hvis : visChars s = ("error: boom".toList))
    (hno : noRV s none = true) :
    annotGo (highlight_search_matches
        (findRanges ("error".toList) ("error: boom".toList)) s) none false
      = [('e', true), ('r', true), ('r', true), ('o', true), ('r', true),
         (':', false), (' ', false), ('b', false), ('o', false),
         ('o', false), ('m', false)] := by
  have hr : findRanges ("error".toList) ("error: boom".toList) = [(0, 5)] := by
    decide
  rw [hr]
  unfold highlight_search_matches
  rw [if_neg (by decide)]
  have h := annot_hsmGo [(0, 5)] s none 0 false hno
  simp only [Option.isSome_none] at h
  rw [h, visAnnotGo_eq_annotOfVis]
  show annotOfVis [(0, 5)] (visChars s) 0 = _
  rw [hvis]
  decide

/-- Witness for C9 at the colorized form
`"\x1b[38;5;196merror: boom\x1b[0m"` (a red rule color wrapping the whole
line). -/
theorem search_highlight_wraps_first_five_witness :
    visChars (("\x1b[38;5;196merror: boom\x1b[0m").toList)
        = ("error: boom".toList) ∧
      annotGo (highlight_search_matches
          (findRanges ("error".toList) ("error: boom".toList))
          (("\x1b[38;5;196merror: boom\x1b[0m").toList)) none false
        = [('e', true), ('r', true), ('r', true), ('o', true), ('r', true),
           (':', false), (' ', false), ('b', false), ('o', false),
           ('o', false), ('m', false)] :=
  ⟨by decide,
    search_highlight_wraps_first_five (("\x1b[38;5;196merror: boom\x1b[0m").toList)
      (by decide) (by decide)⟩

end Fuzzytail
